import Mathlib

/-!
Shallow embedding of `src/main.rs` of the `watch_scripts` repository:
the change-to-action orchestrator built on watchexec.  Paths are modelled
as lists of components (the output of Rust's `Path::components`), the
filesystem (executable-bit query, canonicalization, directory changes,
existence) is an external collaborator modelled as a record of functions,
and the effectful tick handler is modelled as a state-transition function
that also emits an ordered trace of primitive effects.
-/

namespace WatchScripts

/-- One component of a filesystem path, mirroring `std::path::Component`
(the prefix variant is Windows-only and never arises here). -/
inductive Component
  | rootDir
  | curDir
  | parentDir
  | normal (s : String)
  deriving DecidableEq, Repr

/-- A filesystem path, as its list of components. -/
structure Path where
  components : List Component
  deriving DecidableEq, Repr

/-- `Path::file_name`: the final component when it is a normal component,
otherwise `none` (root paths and paths ending in `..` have no file name). -/
def Path.fileName (p : Path) : Option String :=
  match p.components.getLast? with
  | some (Component.normal s) => some s
  | _ => none

/-- `Path::parent`: drop the final component; `none` for the empty path and
for a bare root. -/
def Path.parent (p : Path) : Option Path :=
  match p.components with
  | [] => none
  | [Component.rootDir] => none
  | _ => some ⟨p.components.dropLast⟩

/-- Rust's `str::starts_with(".")` for the one-character pattern: the
first character is a dot. -/
def startsWithDot (s : String) : Bool :=
  match s.data with
  | [] => false
  | c :: _ => c = '.'

/-- Rust's `str::ends_with("~")` for the one-character pattern: the last
character is a tilde. -/
def endsWithTilde (s : String) : Bool :=
  match s.data.getLast? with
  | some c => c = '~'
  | none => false

/-- The hidden-component scan of `get_command`: some normal component's
name starts with a dot. -/
def Path.hasHiddenComponent (p : Path) : Bool :=
  p.components.any fun c =>
    match c with
    | Component.normal s => startsWithDot s
    | _ => false

/-- The editor-backup scan of `get_command`: the file name (when there is
one) ends with `~`. -/
def Path.hasTildeName (p : Path) : Bool :=
  match p.fileName with
  | some n => endsWithTilde n
  | none => false

/-- `watchexec_events::filekind::DataChange` (only `Content` matters). -/
inductive DataChange
  | content
  | size
  | other
  deriving DecidableEq, Repr

/-- `watchexec_events::filekind::ModifyKind`. -/
inductive ModifyKind
  | data (c : DataChange)
  | metadata
  | name
  | other
  deriving DecidableEq, Repr

/-- `watchexec_events::filekind::FileEventKind`. -/
inductive FileEventKind
  | create
  | modify (m : ModifyKind)
  | remove
  | access
  | other
  deriving DecidableEq, Repr

/-- `watchexec_events::Tag`: the two variants `get_command` inspects, and
an opaque rest. -/
inductive Tag
  | fileEventKind (k : FileEventKind)
  | path (p : Path)
  | other
  deriving DecidableEq, Repr

/-- `watchexec_events::Event`: its ordered tag list. -/
structure Event where
  tags : List Tag
  deriving DecidableEq, Repr

/-- The external filesystem collaborator: `permissions::is_executable`
(`none` models `Err`), `fs::canonicalize` (`none` models `Err`),
`std::env::set_current_dir` success, and `Path::exists`. -/
structure FS where
  is_executable : Path → Option Bool
  canonicalize : Path → Option Path
  cd_ok : Path → Bool
  pathExists : Path → Bool

/-- `watchexec::command::Command` with a `Program::Shell` program:
shell name, command string, argument list. -/
structure WatchCommand where
  shell : String
  command : String
  args : List String
  deriving DecidableEq, Repr

/-- Build the shell command used throughout `main.rs`:
`bash` running the given command string with no extra args. -/
def mkShell (cmd : String) : WatchCommand :=
  ⟨"bash", cmd, []⟩

/-- The content-change filter of `get_command` (first `.filter`): the event
carries a `FileEventKind::Modify(ModifyKind::Data(DataChange::Content))` tag. -/
def hasContentChange (e : Event) : Bool :=
  e.tags.any fun t =>
    match t with
    | Tag.fileEventKind (FileEventKind.modify (ModifyKind.data DataChange.content)) => true
    | _ => false

/-- The per-tag candidate extraction of `get_command` (body of the inner
`find_map`): a `Path` tag survives when the executable check returns
`Ok(true)`, no normal component is dot-prefixed, and the file name (when
present) does not end in `~`. -/
def tagCandidate (fs : FS) (t : Tag) : Option Path :=
  match t with
  | Tag.path p =>
    match fs.is_executable p with
    | some true =>
      if p.hasHiddenComponent then none
      else if p.hasTildeName then none
      else some p
    | _ => none
  | _ => none

/-- The per-event candidate of `get_command` (the inner `find_map` over
the event's tags). -/
def pathFromEvent (fs : FS) (e : Event) : Option Path :=
  e.tags.findSome? (tagCandidate fs)

/-- First surviving candidate of the batch, exactly as the source chains
`.filter(content-change).filter_map(pathFromEvent).nth(0)`. -/
def firstCandidate (fs : FS) (events : List Event) : Option Path :=
  (events.filter hasContentChange).findSome? (pathFromEvent fs)

/-- Fused per-event candidate: content-change gate composed with
`pathFromEvent`. -/
def eventCandidate (fs : FS) (e : Event) : Option Path :=
  if hasContentChange e then pathFromEvent fs e else none

/-- Result of `get_command`: `panicked` models the
`fs::canonicalize(&p).unwrap()` panic; `noTarget` models `None`;
`target` carries `(cd_to, command, run_then)`. -/
inductive GetCommandResult
  | panicked
  | noTarget
  | target (cd_to : Option Path) (cmd : WatchCommand) (run_then : Bool)
  deriving DecidableEq, Repr

/-- `get_command` of `main.rs`: select the first surviving candidate,
canonicalize it (unwrap), compute `run_then` (then-path configured and
different from the canonical path), `cd_to` (the candidate's parent) and
the `./name` invocation; the `file_name()?` turns a candidate without a
file name into `None` for the whole call. -/
def get_command (fs : FS) (events : List Event) (then_path : Option Path) :
    GetCommandResult :=
  match firstCandidate fs events with
  | none => GetCommandResult.noTarget
  | some p =>
    match fs.canonicalize p with
    | none => GetCommandResult.panicked
    | some full_path =>
      let run_then : Bool :=
        match then_path with
        | some tp => decide (tp ≠ full_path)
        | none => false
      let cd_to : Option Path := p.parent
      match p.fileName with
      | none => GetCommandResult.noTarget
      | some n => GetCommandResult.target cd_to (mkShell ("./" ++ n)) run_then

/-- Result of a computation that may hit a Rust `unwrap` panic. -/
inductive PanicOr (α : Type)
  | panicked
  | ok (a : α)
  deriving DecidableEq, Repr

/-- The configuration record `Payload` (the unused timestamp field is
dropped; `initial_dir` is used only after `validate_paths` has ruled out
`None`, so it is carried already unwrapped). -/
structure Payload where
  initial_dir : Path
  raw_then_path : Option Path
  deriving DecidableEq, Repr

/-- `Payload::then_command`: `./<file name of raw_then_path>`, with the
`file_name().unwrap()` panic modelled explicitly; `none` configured then
path yields `Ok(None)`. -/
def then_command (raw_then_path : Option Path) : PanicOr (Option String) :=
  match raw_then_path with
  | none => PanicOr.ok none
  | some tp =>
    match tp.fileName with
    | none => PanicOr.panicked
    | some n => PanicOr.ok (some ("./" ++ n))

/-- `Payload::then_job`: wrap the then command as a bash shell command. -/
def then_job (raw_then_path : Option Path) : PanicOr (Option WatchCommand) :=
  match then_command raw_then_path with
  | PanicOr.panicked => PanicOr.panicked
  | PanicOr.ok none => PanicOr.ok none
  | PanicOr.ok (some c) => PanicOr.ok (some (mkShell c))

/-- Outcome of `Payload::validate_paths`: `exitFail` models
`std::process::exit(1)`, `err` models the propagated `?` error from
`fs::canonicalize`, `ok` carries the canonicalized then path. -/
inductive ValidateResult
  | exitFail
  | err
  | ok (canonical_then : Option Path)
  deriving DecidableEq, Repr

/-- `Payload::validate_paths`: fatal exit when the current directory is
unknown, when the then path does not exist, is not executable, or its
permissions cannot be determined; otherwise the then path is canonicalized
(`?` propagating failure). -/
def validate_paths (fs : FS) (initial_dir : Option Path)
    (raw_then_path : Option Path) : ValidateResult :=
  match initial_dir with
  | none => ValidateResult.exitFail
  | some _ =>
    match raw_then_path with
    | none => ValidateResult.ok none
    | some tp =>
      if fs.pathExists tp = false then ValidateResult.exitFail
      else
        match fs.is_executable tp with
        | some true =>
          match fs.canonicalize tp with
          | some c => ValidateResult.ok (some c)
          | none => ValidateResult.err
        | some false => ValidateResult.exitFail
        | none => ValidateResult.exitFail

/-- Lifecycle phase of a tracked watchexec job, as the tick handler and the
chain continuation can observe it: created but not started, started and
still running, or finished with a success flag (`ProcessEnd::Success`
versus any failing end).  A deleted job is simply absent from the table,
matching `Job::delete_now` removing it and `Job::is_dead` turning true. -/
inductive JobPhase
  | created
  | running
  | finishedOk
  | finishedFail
  deriving DecidableEq, Repr

/-- A tracked job: its command and phase. -/
structure JobRec where
  cmd : WatchCommand
  phase : JobPhase
  deriving DecidableEq, Repr

/-- A spawned chain continuation, keyed by the primary job it awaits and
the pre-created then job it may start. -/
structure ChainTask where
  primaryId : Nat
  thenId : Nat
  deriving DecidableEq, Repr

/-- The supervisor-visible system state: the job table (`action.list_jobs`),
a fresh-id counter, and the chain tasks spawned so far. -/
structure SysState where
  jobs : List (Nat × JobRec)
  nextId : Nat
  chains : List ChainTask
  deriving DecidableEq, Repr

/-- Primitive effects, in program order, emitted by the tick handler and
the chain continuation. -/
inductive Effect
  | cdInitial
  | cdTo (d : Path)
  | deleteJob (id : Nat)
  | createJob (id : Nat) (cmd : WatchCommand)
  | startJob (id : Nat)
  | spawnChain (primaryId thenId : Nat)
  deriving DecidableEq, Repr

/-- Result of one tick of the `on_action` closure. -/
inductive TickResult
  | quit
  | continue (s : SysState) (effs : List Effect)
  | panicked
  deriving DecidableEq, Repr

/-- Look a job up in the table (first binding wins, ids are unique by
construction). -/
def lookupJob (jobs : List (Nat × JobRec)) (id : Nat) : Option JobRec :=
  match jobs.find? (fun j => j.1 = id) with
  | some j => some j.2
  | none => none

/-- The tail of the `on_action` closure after both directory changes
succeeded: delete every tracked job, create and start the primary job, and
when `run_then` is set and a then job exists, create it and spawn the chain
task (the `then_command` unwrap can panic here). -/
def after_cd (payload : Payload) (s : SysState) (cdEffs : List Effect)
    (cmd : WatchCommand) (run_then : Bool) : TickResult :=
  let delEffs := s.jobs.map (fun j => Effect.deleteJob j.1)
  let id := s.nextId
  let baseEffs := cdEffs ++ delEffs ++ [Effect.createJob id cmd, Effect.startJob id]
  let primary : Nat × JobRec := (id, ⟨cmd, JobPhase.running⟩)
  if run_then then
    match then_job payload.raw_then_path with
    | PanicOr.panicked => TickResult.panicked
    | PanicOr.ok none =>
      TickResult.continue ⟨[primary], id + 1, s.chains⟩ baseEffs
    | PanicOr.ok (some tcmd) =>
      let tid := id + 1
      TickResult.continue
        ⟨[primary, (tid, ⟨tcmd, JobPhase.created⟩)], tid + 1,
          s.chains ++ [⟨id, tid⟩]⟩
        (baseEffs ++ [Effect.createJob tid tcmd, Effect.spawnChain id tid])
  else
    TickResult.continue ⟨[primary], id + 1, s.chains⟩ baseEffs

/-- The `on_action` closure of `Runner::run`: quit on interrupt; otherwise
run `get_command`; on a target, change directory to the initial directory
and then to the target's parent (either failure returns early with job
state untouched), then hand over to `after_cd`. -/
def on_action (fs : FS) (payload : Payload) (interrupt : Bool)
    (events : List Event) (s : SysState) : TickResult :=
  if interrupt then TickResult.quit
  else
    match get_command fs events payload.raw_then_path with
    | GetCommandResult.panicked => TickResult.panicked
    | GetCommandResult.noTarget => TickResult.continue s []
    | GetCommandResult.target cd_to cmd run_then =>
      if fs.cd_ok payload.initial_dir = false then
        TickResult.continue s [Effect.cdInitial]
      else
        match cd_to with
        | some d =>
          if fs.cd_ok d = false then
            TickResult.continue s [Effect.cdInitial, Effect.cdTo d]
          else after_cd payload s [Effect.cdInitial, Effect.cdTo d] cmd run_then
        | none => after_cd payload s [Effect.cdInitial] cmd run_then

/-- `Payload::then_cd` as attempted effects plus a success flag: change to
the initial directory, then (when the then path has a parent) to that
parent; the flag is false as soon as a change fails. -/
def then_cd (fs : FS) (initial_dir : Path) (tp : Path) :
    List Effect × Bool :=
  if fs.cd_ok initial_dir = false then ([Effect.cdInitial], false)
  else
    match tp.parent with
    | some d =>
      if fs.cd_ok d then ([Effect.cdInitial, Effect.cdTo d], true)
      else ([Effect.cdInitial, Effect.cdTo d], false)
    | none => ([Effect.cdInitial], true)

/-- Mark the then job started in the table (what `then_run.start()` does
to the supervisor's view). -/
def startThenJob (jobs : List (Nat × JobRec)) (tid : Nat) :
    List (Nat × JobRec) :=
  jobs.map fun j =>
    if j.1 = tid then (j.1, ⟨j.2.cmd, JobPhase.running⟩) else j

/-- The spawned chain continuation, run at some later state: after
`job.to_wait()`, if the primary job is not dead (still tracked) and its
current command state is `Finished` with `Success`, run `then_cd` and on
success start the pre-created then job.  The `raw_then_path` unwrap inside
`then_cd` is a panic when no then path is configured (unreachable from
`on_action`, which spawns chains only with a configured then path). -/
def run_chain (fs : FS) (payload : Payload) (s : SysState) (c : ChainTask) :
    PanicOr (SysState × List Effect) :=
  match lookupJob s.jobs c.primaryId with
  | none => PanicOr.ok (s, [])
  | some rec =>
    match rec.phase with
    | JobPhase.finishedOk =>
      match payload.raw_then_path with
      | none => PanicOr.panicked
      | some tp =>
        let r := then_cd fs payload.initial_dir tp
        if r.2 then
          PanicOr.ok
            (⟨startThenJob s.jobs c.thenId, s.nextId, s.chains⟩,
              r.1 ++ [Effect.startJob c.thenId])
        else PanicOr.ok (s, r.1)
    | _ => PanicOr.ok (s, [])

/-! ## Concrete instances used by witnesses and counterexamples -/

/-- A filesystem where everything is executable, canonicalization is the
identity, and every directory change succeeds. -/
def fsAll : FS :=
  ⟨fun _ => some true, fun p => some p, fun _ => true, fun _ => true⟩

/-- The content-change tag. -/
def contentTag : Tag :=
  Tag.fileEventKind (FileEventKind.modify (ModifyKind.data DataChange.content))

/-- The filesystem root `/`. -/
def rootPath : Path := ⟨[Component.rootDir]⟩

/-- `/good.sh`. -/
def goodPath : Path := ⟨[Component.rootDir, Component.normal "good.sh"]⟩

/-- `/.git/x.sh`: a path with a hidden component. -/
def hiddenPath : Path :=
  ⟨[Component.rootDir, Component.normal ".git", Component.normal "x.sh"]⟩

/-- A content-change event for the root path. -/
def evRoot : Event := ⟨[contentTag, Tag.path rootPath]⟩

/-- A content-change event for `/good.sh`. -/
def evGood : Event := ⟨[contentTag, Tag.path goodPath]⟩

/-- A content-change event for the hidden path. -/
def evHidden : Event := ⟨[contentTag, Tag.path hiddenPath]⟩

/-- A rename-only event for `/good.sh` (no content-change tag). -/
def evRename : Event :=
  ⟨[Tag.fileEventKind (FileEventKind.modify ModifyKind.name), Tag.path goodPath]⟩

/-- A filesystem where every directory change fails (everything else as in
`fsAll`). -/
def fsNoCd : FS :=
  ⟨fun _ => some true, fun p => some p, fun _ => false, fun _ => true⟩

/-- The configured then script `/notify.sh`. -/
def thenPath : Path := ⟨[Component.rootDir, Component.normal "notify.sh"]⟩

/-- A payload with no then script, started in `/`. -/
def payload0 : Payload := ⟨rootPath, none⟩

/-- A payload with then script `/notify.sh`, started in `/`. -/
def payloadT : Payload := ⟨rootPath, some thenPath⟩

/-- A payload whose then script is `/good.sh` itself (the self-edit case). -/
def payloadSelf : Payload := ⟨rootPath, some goodPath⟩

/-- The primary job's command in the chain scenarios. -/
def primaryCmd : WatchCommand := mkShell "./build.sh"

/-- The pre-created then job's command in the chain scenarios. -/
def thenCmdW : WatchCommand := mkShell "./notify.sh"

/-- A state with one tracked running job, used as a generic pre-state. -/
def s0 : SysState :=
  ⟨[(0, ⟨mkShell "./old.sh", JobPhase.running⟩)], 1, []⟩

/-- A state as left by a tick that scheduled a chain, after the primary
job finished successfully: primary job 0 finished, then job 1 created but
not started, one chain task. -/
def sChain : SysState :=
  ⟨[(0, ⟨primaryCmd, JobPhase.finishedOk⟩), (1, ⟨thenCmdW, JobPhase.created⟩)],
    2, [⟨0, 1⟩]⟩

/-- The configured then path, when present, has a file name — the condition
under which `Payload::then_command`'s unwrap cannot fire. -/
def thenNameOk (payload : Payload) : Bool :=
  match payload.raw_then_path with
  | none => true
  | some tp => tp.fileName.isSome

/-! ## Helper lemmas -/

/-- The source's filter-then-scan equals a single scan with the fused
per-event candidate function. -/
theorem firstCandidate_eq (fs : FS) (events : List Event) :
    firstCandidate fs events = events.findSome? (eventCandidate fs) := by
  induction events with
  | nil => rfl
  | cons e es ih =>
    unfold firstCandidate at ih ⊢
    cases h : hasContentChange e with
    | true =>
      rw [List.filter_cons_of_pos (by simp [h])]
      cases hp : pathFromEvent fs e <;>
        simp [List.findSome?_cons, eventCandidate, h, hp, ih]
    | false =>
      rw [List.filter_cons_of_neg (by simp [h])]
      simp [List.findSome?_cons, eventCandidate, h, ih]

/-- `findSome?` skips a prefix on which the function yields nothing. -/
theorem findSome?_append_of_none {α β : Type} (f : α → Option β)
    (pre rest : List α) (h : ∀ a ∈ pre, f a = none) :
    (pre ++ rest).findSome? f = rest.findSome? f := by
  induction pre with
  | nil => rfl
  | cons a as ih =>
    have ha : f a = none := h a (List.mem_cons_self a as)
    simp [List.findSome?_cons, ha,
      ih (fun x hx => h x (List.mem_cons_of_mem a hx))]

/-- Any of the three exclusion rules makes a path tag yield no candidate. -/
theorem tagCandidate_excluded (fs : FS) (p : Path)
    (h : fs.is_executable p ≠ some true ∨ p.hasHiddenComponent = true ∨
      p.hasTildeName = true) :
    tagCandidate fs (Tag.path p) = none := by
  rcases h with h | h | h
  · cases hx : fs.is_executable p with
    | none => simp [tagCandidate, hx]
    | some b =>
      cases b with
      | false => simp [tagCandidate, hx]
      | true => exact absurd hx h
  · cases hx : fs.is_executable p with
    | none => simp [tagCandidate, hx]
    | some b =>
      cases b with
      | false => simp [tagCandidate, hx]
      | true => simp [tagCandidate, hx, h]
  · cases hx : fs.is_executable p with
    | none => simp [tagCandidate, hx]
    | some b =>
      cases b with
      | false => simp [tagCandidate, hx]
      | true => simp [tagCandidate, hx, h]

/-! ## Claim theorems -/

/-- C8: for a batch whose prefix yields no candidate and whose next event
yields candidate `p` (with a successful canonicalization and a file name),
`get_command` selects exactly that first candidate in delivery order, and
being a function of the batch it is deterministic across repeated runs on
the same input. -/
theorem first_in_order_selected (fs : FS) (pre rest : List Event) (e : Event)
    (tp : Option Path) (p q : Path) (n : String)
    (hpre : ∀ a ∈ pre, eventCandidate fs a = none)
    (he : eventCandidate fs e = some p)
    (hq : fs.canonicalize p = some q)
    (hn : p.fileName = some n) :
    get_command fs (pre ++ e :: rest) tp =
      GetCommandResult.target p.parent (mkShell ("./" ++ n))
        (match tp with
         | some t => decide (t ≠ q)
         | none => false) ∧
    get_command fs (pre ++ e :: rest) tp = get_command fs (pre ++ e :: rest) tp := by
  have hfc : firstCandidate fs (pre ++ e :: rest) = some p := by
    rw [firstCandidate_eq, findSome?_append_of_none _ _ _ hpre]
    simp [List.findSome?_cons, he]
  refine ⟨?_, rfl⟩
  cases tp <;> simp [get_command, hfc, hq, hn]

/-- C8 witness: a batch whose first event is inert (rename only) and whose
second event qualifies selects `/good.sh`. -/
theorem first_in_order_selected_witness :
    get_command fsAll [evRename, evGood] none =
      GetCommandResult.target goodPath.parent (mkShell "./good.sh") false := by
  have h := (first_in_order_selected fsAll [evRename] [] evGood none goodPath
    goodPath "good.sh"
    (by intro a ha; simp only [List.mem_singleton] at ha; subst ha; decide)
    (by decide) (by decide) (by decide)).1
  exact h

/-- C9: a candidate with a non-true executable check (including an
erroring check), a hidden non-root component, or a `~`-suffixed file name
is excluded; when every path tag of every event in the batch is excluded,
`get_command` returns nothing. -/
theorem excluded_paths_yield_nothing :
    (∀ (fs : FS) (p : Path),
      (fs.is_executable p ≠ some true ∨ p.hasHiddenComponent = true ∨
        p.hasTildeName = true) →
      tagCandidate fs (Tag.path p) = none) ∧
    (∀ (fs : FS) (events : List Event) (tp : Option Path),
      (∀ e ∈ events, ∀ t ∈ e.tags, ∀ p : Path, t = Tag.path p →
        fs.is_executable p ≠ some true ∨ p.hasHiddenComponent = true ∨
          p.hasTildeName = true) →
      get_command fs events tp = GetCommandResult.noTarget) := by
  constructor
  · exact tagCandidate_excluded
  · intro fs events tp hall
    have hfc : firstCandidate fs events = none := by
      rw [firstCandidate_eq, List.findSome?_eq_none_iff]
      intro e he
      unfold eventCandidate
      cases hc : hasContentChange e with
      | false => simp
      | true =>
        simp only [if_true]
        unfold pathFromEvent
        rw [List.findSome?_eq_none_iff]
        intro t ht
        cases t with
        | fileEventKind k => simp [tagCandidate]
        | other => simp [tagCandidate]
        | path p => exact tagCandidate_excluded fs p (hall e he _ ht p rfl)
    simp [get_command, hfc]

/-- C9 witness: the hidden path `/.git/x.sh` is excluded even on an
all-executable filesystem, and a batch holding only it yields nothing. -/
theorem excluded_paths_yield_nothing_witness :
    tagCandidate fsAll (Tag.path hiddenPath) = none ∧
    get_command fsAll [evHidden] none = GetCommandResult.noTarget := by
  constructor
  · exact excluded_paths_yield_nothing.1 fsAll hiddenPath
      (Or.inr (Or.inl (by decide)))
  · refine excluded_paths_yield_nothing.2 fsAll [evHidden] none ?_
    intro e he t ht p hp
    simp only [List.mem_singleton] at he
    subst he
    simp only [evHidden, List.mem_cons, List.not_mem_nil, or_false] at ht
    rcases ht with ht | ht
    · subst ht; exact absurd hp (by simp [contentTag])
    · subst ht
      cases hp
      exact Or.inr (Or.inl (by decide))

/-- C2 (amended): when the first surviving candidate of the batch has no
file-name component (and canonicalization succeeds), `get_command` returns
nothing for the entire batch — the remaining candidates are not scanned. -/
theorem no_filename_aborts_batch (fs : FS) (events : List Event)
    (tp : Option Path) (p q : Path)
    (hfirst : firstCandidate fs events = some p)
    (hq : fs.canonicalize p = some q)
    (hn : p.fileName = none) :
    get_command fs events tp = GetCommandResult.noTarget := by
  cases tp <;> simp [get_command, hfirst, hq, hn]

/-- C2 witness: a batch holding only the root path yields nothing. -/
theorem no_filename_aborts_batch_witness :
    get_command fsAll [evRoot] none = GetCommandResult.noTarget :=
  no_filename_aborts_batch fsAll [evRoot] none rootPath rootPath
    (by decide) (by decide) (by decide)

/-- C2 counterexample: the surviving root candidate has no file name, a
later event in the same batch fully qualifies (`/good.sh`), yet
`get_command` returns nothing for the whole batch instead of selecting
the later candidate. -/
theorem no_filename_aborts_batch_cx :
    eventCandidate fsAll evRoot = some rootPath ∧
    rootPath.fileName = none ∧
    eventCandidate fsAll evGood = some goodPath ∧
    goodPath.fileName = some "good.sh" ∧
    get_command fsAll [evRoot, evGood] none = GetCommandResult.noTarget ∧
    get_command fsAll [evGood] none =
      GetCommandResult.target (some rootPath) (mkShell "./good.sh") false := by
  refine ⟨by decide, by decide, by decide, by decide, by decide, by decide⟩

/-- C7: a non-interrupt tick whose batch yields no actionable target
returns `Continue` with the state unchanged and an empty effect trace —
no job is deleted, created or started. -/
theorem inert_batch_noop (fs : FS) (payload : Payload) (events : List Event)
    (s : SysState)
    (h : get_command fs events payload.raw_then_path = GetCommandResult.noTarget) :
    on_action fs payload false events s = TickResult.continue s [] := by
  simp [on_action, h]

/-- C7 witness: a rename-only batch leaves a state with a running job
untouched. -/
theorem inert_batch_noop_witness :
    on_action fsAll ⟨rootPath, none⟩ false [evRename]
      ⟨[(0, ⟨mkShell "./build.sh", JobPhase.running⟩)], 1, []⟩ =
    TickResult.continue
      ⟨[(0, ⟨mkShell "./build.sh", JobPhase.running⟩)], 1, []⟩ [] :=
  inert_batch_noop fsAll ⟨rootPath, none⟩ [evRename]
    ⟨[(0, ⟨mkShell "./build.sh", JobPhase.running⟩)], 1, []⟩ (by decide)

/-- When both directory changes succeed, the tick reduces to `after_cd`
with the cd effects in front. -/
theorem on_action_target_after_cd (fs : FS) (payload : Payload)
    (events : List Event) (s : SysState) (cd : Option Path)
    (cmd : WatchCommand) (rt : Bool)
    (hg : get_command fs events payload.raw_then_path =
      GetCommandResult.target cd cmd rt)
    (h1 : fs.cd_ok payload.initial_dir = true)
    (h2 : ∀ d, cd = some d → fs.cd_ok d = true) :
    on_action fs payload false events s =
      after_cd payload s (Effect.cdInitial :: (cd.map Effect.cdTo).toList)
        cmd rt := by
  cases cd with
  | none => simp [on_action, hg, h1]
  | some d => simp [on_action, hg, h1, h2 d rfl]

/-- `after_cd` with `run_then = false`: delete everything, create and start
the primary job, spawn nothing. -/
theorem after_cd_no_then (payload : Payload) (s : SysState)
    (cdEffs : List Effect) (cmd : WatchCommand) :
    after_cd payload s cdEffs cmd false =
      TickResult.continue
        ⟨[(s.nextId, ⟨cmd, JobPhase.running⟩)], s.nextId + 1, s.chains⟩
        (cdEffs ++ s.jobs.map (fun j => Effect.deleteJob j.1) ++
          [Effect.createJob s.nextId cmd, Effect.startJob s.nextId]) := by
  simp [after_cd]

/-- `after_cd` with `run_then = true` but no then path configured behaves
like the `run_then = false` branch (the `if let Some` finds nothing). -/
theorem after_cd_then_missing (payload : Payload) (s : SysState)
    (cdEffs : List Effect) (cmd : WatchCommand)
    (htp : payload.raw_then_path = none) :
    after_cd payload s cdEffs cmd true =
      TickResult.continue
        ⟨[(s.nextId, ⟨cmd, JobPhase.running⟩)], s.nextId + 1, s.chains⟩
        (cdEffs ++ s.jobs.map (fun j => Effect.deleteJob j.1) ++
          [Effect.createJob s.nextId cmd, Effect.startJob s.nextId]) := by
  simp [after_cd, then_job, then_command, htp]

/-- `after_cd` with `run_then = true` and a then path with a file name:
delete everything, create and start the primary job, create the then job
and spawn the chain task. -/
theorem after_cd_run_then (payload : Payload) (s : SysState)
    (cdEffs : List Effect) (cmd : WatchCommand) (tp : Path) (n : String)
    (htp : payload.raw_then_path = some tp) (hn : tp.fileName = some n) :
    after_cd payload s cdEffs cmd true =
      TickResult.continue
        ⟨[(s.nextId, ⟨cmd, JobPhase.running⟩),
          (s.nextId + 1, ⟨mkShell ("./" ++ n), JobPhase.created⟩)],
          s.nextId + 1 + 1, s.chains ++ [⟨s.nextId, s.nextId + 1⟩]⟩
        (cdEffs ++ s.jobs.map (fun j => Effect.deleteJob j.1) ++
          [Effect.createJob s.nextId cmd, Effect.startJob s.nextId] ++
          [Effect.createJob (s.nextId + 1) (mkShell ("./" ++ n)),
            Effect.spawnChain s.nextId (s.nextId + 1)]) := by
  simp [after_cd, then_job, then_command, htp, hn]

/-- The effects attempted by `then_cd` are directory changes only. -/
theorem then_cd_effects_cd_only (fs : FS) (i tp : Path) (e : Effect)
    (he : e ∈ (then_cd fs i tp).1) :
    e = Effect.cdInitial ∨ ∃ d, e = Effect.cdTo d := by
  unfold then_cd at he
  by_cases h1 : fs.cd_ok i = false
  · simp [h1] at he
    exact Or.inl he
  · simp [h1] at he
    cases hp : tp.parent with
    | none =>
      rw [hp] at he
      simp at he
      exact Or.inl he
    | some d =>
      rw [hp] at he
      by_cases h2 : fs.cd_ok d <;> simp [h2] at he <;>
        rcases he with he | he <;>
        first
          | exact Or.inl he
          | exact Or.inr ⟨d, he⟩

/-- `then_run.start()` only flips the then job's phase: the tracked job
ids are unchanged. -/
theorem startThenJob_keys (jobs : List (Nat × JobRec)) (tid : Nat) :
    (startThenJob jobs tid).map Prod.fst = jobs.map Prod.fst := by
  induction jobs with
  | nil => rfl
  | cons a l ih =>
    by_cases h : a.1 = tid <;> simp [startThenJob, h] at ih ⊢ <;> exact ih

/-- C3: when a target was selected but the change to the initial directory
or to the target's parent fails, the tick returns `Continue` with the job
state unchanged: no job is deleted, created, started, and no chain task is
spawned. -/
theorem cd_failure_tick_noop (fs : FS) (payload : Payload)
    (events : List Event) (s : SysState) (cd : Option Path)
    (cmd : WatchCommand) (rt : Bool)
    (hg : get_command fs events payload.raw_then_path =
      GetCommandResult.target cd cmd rt)
    (hfail : fs.cd_ok payload.initial_dir = false ∨
      (∃ d, cd = some d ∧ fs.cd_ok payload.initial_dir = true ∧
        fs.cd_ok d = false)) :
    ∃ effs, on_action fs payload false events s = TickResult.continue s effs ∧
      (∀ id, Effect.deleteJob id ∉ effs) ∧
      (∀ id c, Effect.createJob id c ∉ effs) ∧
      (∀ id, Effect.startJob id ∉ effs) ∧
      (∀ i j, Effect.spawnChain i j ∉ effs) := by
  rcases hfail with h1 | ⟨d, hcd, h1, h2⟩
  · exact ⟨[Effect.cdInitial], by simp [on_action, hg, h1],
      by simp, by simp, by simp, by simp⟩
  · subst hcd
    exact ⟨[Effect.cdInitial, Effect.cdTo d],
      by simp [on_action, hg, h1, h2], by simp, by simp, by simp, by simp⟩

/-- C3 witness: on a filesystem where directory changes fail, a qualifying
batch leaves the tracked running job alone. -/
theorem cd_failure_tick_noop_witness :
    get_command fsNoCd [evGood] payload0.raw_then_path =
      GetCommandResult.target (some rootPath) (mkShell "./good.sh") false ∧
    (∃ effs, on_action fsNoCd payload0 false [evGood] s0 =
        TickResult.continue s0 effs ∧
      (∀ id, Effect.deleteJob id ∉ effs) ∧
      (∀ id c, Effect.createJob id c ∉ effs) ∧
      (∀ id, Effect.startJob id ∉ effs) ∧
      (∀ i j, Effect.spawnChain i j ∉ effs)) :=
  ⟨by decide,
    cd_failure_tick_noop fsNoCd payload0 [evGood] s0 (some rootPath)
      (mkShell "./good.sh") false (by decide) (Or.inl rfl)⟩

/-- C5: when the selected candidate's canonical path equals the configured
then path, `get_command` reports `run_then = false`; and a tick whose
target carries `run_then = false` spawns no chain task and creates and
starts only the primary job, so no then job can ever be created or started
for it, even if the primary job later finishes successfully. -/
theorem self_edit_suppression :
    (∀ (fs : FS) (events : List Event) (p tp : Path) (n : String),
      firstCandidate fs events = some p →
      fs.canonicalize p = some tp →
      p.fileName = some n →
      get_command fs events (some tp) =
        GetCommandResult.target p.parent (mkShell ("./" ++ n)) false) ∧
    (∀ (fs : FS) (payload : Payload) (events : List Event) (s : SysState)
      (cd : Option Path) (cmd : WatchCommand),
      get_command fs events payload.raw_then_path =
        GetCommandResult.target cd cmd false →
      ∃ s' effs, on_action fs payload false events s =
          TickResult.continue s' effs ∧
        s'.chains = s.chains ∧
        (∀ i j, Effect.spawnChain i j ∉ effs) ∧
        (∀ id c, Effect.createJob id c ∈ effs → id = s.nextId ∧ c = cmd) ∧
        (∀ id, Effect.startJob id ∈ effs → id = s.nextId)) := by
  constructor
  · intro fs events p tp n h1 h2 h3
    simp [get_command, h1, h2, h3]
  · intro fs payload events s cd cmd hg
    by_cases h1 : fs.cd_ok payload.initial_dir = false
    · exact ⟨s, [Effect.cdInitial], by simp [on_action, hg, h1], rfl,
        by simp, by simp, by simp⟩
    · have h1' : fs.cd_ok payload.initial_dir = true := by
        simpa using h1
      cases cd with
      | some d =>
        by_cases h2 : fs.cd_ok d = false
        · exact ⟨s, [Effect.cdInitial, Effect.cdTo d],
            by simp [on_action, hg, h1', h2], rfl, by simp, by simp, by simp⟩
        · have h2' : fs.cd_ok d = true := by simpa using h2
          refine ⟨_, _,
            (on_action_target_after_cd fs payload events s (some d) cmd false
              hg h1' (fun x hx => by cases hx; exact h2')).trans
              (after_cd_no_then payload s _ cmd), rfl, ?_, ?_, ?_⟩
          · intro i j
            simp
          · intro id c h
            simp at h
            exact h
          · intro id h
            simp at h
            exact h
      | none =>
        refine ⟨_, _,
          (on_action_target_after_cd fs payload events s none cmd false
            hg h1' (fun x hx => by cases hx)).trans
            (after_cd_no_then payload s _ cmd), rfl, ?_, ?_, ?_⟩
        · intro i j
          simp
        · intro id c h
          simp at h
          exact h
        · intro id h
          simp at h
          exact h

/-- C5 witness: the then script `/good.sh` edits itself; the tick starts
it as the primary job and schedules nothing else. -/
theorem self_edit_suppression_witness :
    get_command fsAll [evGood] (some goodPath) =
      GetCommandResult.target goodPath.parent (mkShell ("./" ++ "good.sh"))
        false ∧
    (∃ s' effs, on_action fsAll payloadSelf false [evGood] s0 =
        TickResult.continue s' effs ∧
      s'.chains = s0.chains ∧
      (∀ i j, Effect.spawnChain i j ∉ effs) ∧
      (∀ id c, Effect.createJob id c ∈ effs →
        id = s0.nextId ∧ c = mkShell "./good.sh") ∧
      (∀ id, Effect.startJob id ∈ effs → id = s0.nextId)) :=
  ⟨self_edit_suppression.1 fsAll [evGood] goodPath goodPath "good.sh"
      (by decide) (by decide) (by decide),
    self_edit_suppression.2 fsAll payloadSelf [evGood] s0 (some rootPath)
      (mkShell "./good.sh") (by decide)⟩

/-- C4: (a) a qualifying tick whose directory changes succeed deletes
every previously tracked job — in particular a pending or running then
job — before the effect that starts the new primary job, and the deleted
job is no longer tracked afterwards; (b) a chain task whose primary job
has been deleted (is dead) does nothing when it wakes: the superseded
then run never starts. -/
theorem supersession :
    (∀ (fs : FS) (payload : Payload) (events : List Event) (s : SysState)
      (cd : Option Path) (cmd : WatchCommand) (rt : Bool) (tid : Nat)
      (trec : JobRec),
      get_command fs events payload.raw_then_path =
        GetCommandResult.target cd cmd rt →
      fs.cd_ok payload.initial_dir = true →
      (∀ d, cd = some d → fs.cd_ok d = true) →
      thenNameOk payload = true →
      (tid, trec) ∈ s.jobs →
      tid < s.nextId →
      ∃ s' l1 l2, on_action fs payload false events s =
          TickResult.continue s' (l1 ++ Effect.startJob s.nextId :: l2) ∧
        Effect.deleteJob tid ∈ l1 ∧
        lookupJob s'.jobs tid = none) ∧
    (∀ (fs : FS) (payload : Payload) (s : SysState) (c : ChainTask),
      lookupJob s.jobs c.primaryId = none →
      run_chain fs payload s c = PanicOr.ok (s, [])) := by
  constructor
  · intro fs payload events s cd cmd rt tid trec hg h1 h2 hok hmem hlt
    have hoa := on_action_target_after_cd fs payload events s cd cmd rt hg h1 h2
    have hne1 : ¬ (s.nextId = tid) := by omega
    have hne2 : ¬ (s.nextId + 1 = tid) := by omega
    have hdel : Effect.deleteJob tid ∈
        s.jobs.map (fun j => Effect.deleteJob j.1) :=
      List.mem_map_of_mem _ hmem
    have hmem1 : Effect.deleteJob tid ∈
        (Effect.cdInitial :: (cd.map Effect.cdTo).toList) ++
          s.jobs.map (fun j => Effect.deleteJob j.1) ++
          [Effect.createJob s.nextId cmd] :=
      List.mem_append_left _ (List.mem_append_right _ hdel)
    cases rt with
    | false =>
      refine ⟨⟨[(s.nextId, ⟨cmd, JobPhase.running⟩)], s.nextId + 1, s.chains⟩,
        Effect.cdInitial :: (cd.map Effect.cdTo).toList ++
          s.jobs.map (fun j => Effect.deleteJob j.1) ++
          [Effect.createJob s.nextId cmd], [], ?_, hmem1, ?_⟩
      · rw [hoa, after_cd_no_then]
        simp
      · simp [lookupJob, List.find?, hne1]
    | true =>
      cases htp : payload.raw_then_path with
      | none =>
        refine ⟨⟨[(s.nextId, ⟨cmd, JobPhase.running⟩)], s.nextId + 1, s.chains⟩,
          Effect.cdInitial :: (cd.map Effect.cdTo).toList ++
            s.jobs.map (fun j => Effect.deleteJob j.1) ++
            [Effect.createJob s.nextId cmd], [], ?_, hmem1, ?_⟩
        · rw [hoa, after_cd_then_missing payload s _ cmd htp]
          simp
        · simp [lookupJob, List.find?, hne1]
      | some tp =>
        have hn : ∃ n, tp.fileName = some n := by
          unfold thenNameOk at hok
          rw [htp] at hok
          exact Option.isSome_iff_exists.mp hok
        obtain ⟨n, hn⟩ := hn
        refine ⟨⟨[(s.nextId, ⟨cmd, JobPhase.running⟩),
            (s.nextId + 1, ⟨mkShell ("./" ++ n), JobPhase.created⟩)],
            s.nextId + 1 + 1, s.chains ++ [⟨s.nextId, s.nextId + 1⟩]⟩,
          Effect.cdInitial :: (cd.map Effect.cdTo).toList ++
            s.jobs.map (fun j => Effect.deleteJob j.1) ++
            [Effect.createJob s.nextId cmd],
          [Effect.createJob (s.nextId + 1) (mkShell ("./" ++ n)),
            Effect.spawnChain s.nextId (s.nextId + 1)], ?_, hmem1, ?_⟩
        · rw [hoa, after_cd_run_then payload s _ cmd tp n htp hn]
          simp
        · simp [lookupJob, List.find?, hne1, hne2]
  · intro fs payload s c h
    simp [run_chain, h]

/-- C4 witness: with then job 1 still pending from the previous chain, a
new qualifying tick deletes it before starting the new primary job, and
the surviving chain task of deleted primary job 0 does nothing afterwards. -/
theorem supersession_witness :
    (∃ s' l1 l2, on_action fsAll payloadT false [evGood] sChain =
        TickResult.continue s' (l1 ++ Effect.startJob sChain.nextId :: l2) ∧
      Effect.deleteJob 1 ∈ l1 ∧
      lookupJob s'.jobs 1 = none) ∧
    run_chain fsAll payloadT
      ⟨[(2, ⟨mkShell "./good.sh", JobPhase.running⟩)], 3, [⟨0, 1⟩]⟩
      ⟨0, 1⟩ =
      PanicOr.ok (⟨[(2, ⟨mkShell "./good.sh", JobPhase.running⟩)], 3, [⟨0, 1⟩]⟩, []) :=
  ⟨supersession.1 fsAll payloadT [evGood] sChain (some rootPath)
      (mkShell "./good.sh") true 1 ⟨thenCmdW, JobPhase.created⟩
      (by decide) (by decide) (fun d hd => by cases hd; rfl) (by decide)
      (by decide) (by decide),
    supersession.2 fsAll payloadT
      ⟨[(2, ⟨mkShell "./good.sh", JobPhase.running⟩)], 3, [⟨0, 1⟩]⟩
      ⟨0, 1⟩ (by decide)⟩

/-- C6: (a) a chain task whose primary job finished successfully starts
the then job exactly once (a single `startJob` effect), and only after the
working directory was changed to the initial directory and then to the
then script's parent; (b) when the primary job finished with failure, no
then job starts and no effect at all is attempted; (c) a qualifying tick
with `run_then = true` and a configured then script spawns exactly one
chain task. -/
theorem chaining_correctness :
    (∀ (fs : FS) (payload : Payload) (s : SysState) (c : ChainTask)
      (rec : JobRec) (tp d : Path),
      payload.raw_then_path = some tp →
      lookupJob s.jobs c.primaryId = some rec →
      rec.phase = JobPhase.finishedOk →
      fs.cd_ok payload.initial_dir = true →
      tp.parent = some d →
      fs.cd_ok d = true →
      run_chain fs payload s c =
        PanicOr.ok (⟨startThenJob s.jobs c.thenId, s.nextId, s.chains⟩,
          [Effect.cdInitial, Effect.cdTo d, Effect.startJob c.thenId])) ∧
    (∀ (fs : FS) (payload : Payload) (s : SysState) (c : ChainTask)
      (rec : JobRec),
      lookupJob s.jobs c.primaryId = some rec →
      rec.phase = JobPhase.finishedFail →
      run_chain fs payload s c = PanicOr.ok (s, [])) ∧
    (∀ (fs : FS) (payload : Payload) (events : List Event) (s : SysState)
      (cd : Option Path) (cmd : WatchCommand) (tp : Path) (n : String),
      payload.raw_then_path = some tp →
      tp.fileName = some n →
      get_command fs events payload.raw_then_path =
        GetCommandResult.target cd cmd true →
      fs.cd_ok payload.initial_dir = true →
      (∀ d, cd = some d → fs.cd_ok d = true) →
      ∃ s' effs, on_action fs payload false events s =
          TickResult.continue s' effs ∧
        s'.chains = s.chains ++ [⟨s.nextId, s.nextId + 1⟩] ∧
        Effect.spawnChain s.nextId (s.nextId + 1) ∈ effs) := by
  refine ⟨?_, ?_, ?_⟩
  · intro fs payload s c rec tp d htp hl hph h1 hp h2
    simp [run_chain, hl, hph, htp, then_cd, h1, hp, h2]
  · intro fs payload s c rec hl hph
    simp [run_chain, hl, hph]
  · intro fs payload events s cd cmd tp n htp hn hg h1 h2
    have hoa := on_action_target_after_cd fs payload events s cd cmd true hg h1 h2
    refine ⟨⟨[(s.nextId, ⟨cmd, JobPhase.running⟩),
        (s.nextId + 1, ⟨mkShell ("./" ++ n), JobPhase.created⟩)],
        s.nextId + 1 + 1, s.chains ++ [⟨s.nextId, s.nextId + 1⟩]⟩,
      Effect.cdInitial :: (cd.map Effect.cdTo).toList ++
        s.jobs.map (fun j => Effect.deleteJob j.1) ++
        [Effect.createJob s.nextId cmd, Effect.startJob s.nextId] ++
        [Effect.createJob (s.nextId + 1) (mkShell ("./" ++ n)),
          Effect.spawnChain s.nextId (s.nextId + 1)], ?_, rfl, ?_⟩
    · rw [hoa, after_cd_run_then payload s _ cmd tp n htp hn]
    · simp

/-- C6 witness: primary job 0 of `sChain` finished successfully, the chain
starts then job 1 after changing to `/` and to `/notify.sh`'s parent;
in a failed variant of the state nothing happens; a fresh qualifying tick
on `payloadT` spawns exactly one chain task. -/
theorem chaining_correctness_witness :
    run_chain fsAll payloadT sChain ⟨0, 1⟩ =
      PanicOr.ok (⟨startThenJob sChain.jobs 1, sChain.nextId, sChain.chains⟩,
        [Effect.cdInitial, Effect.cdTo rootPath, Effect.startJob 1]) ∧
    run_chain fsAll payloadT
      ⟨[(0, ⟨primaryCmd, JobPhase.finishedFail⟩)], 1, [⟨0, 1⟩]⟩ ⟨0, 1⟩ =
      PanicOr.ok (⟨[(0, ⟨primaryCmd, JobPhase.finishedFail⟩)], 1, [⟨0, 1⟩]⟩, []) ∧
    (∃ s' effs, on_action fsAll payloadT false [evGood] s0 =
        TickResult.continue s' effs ∧
      s'.chains = s0.chains ++ [⟨s0.nextId, s0.nextId + 1⟩] ∧
      Effect.spawnChain s0.nextId (s0.nextId + 1) ∈ effs) :=
  ⟨chaining_correctness.1 fsAll payloadT sChain ⟨0, 1⟩
      ⟨primaryCmd, JobPhase.finishedOk⟩ thenPath rootPath rfl (by decide)
      rfl rfl (by decide) rfl,
    chaining_correctness.2.1 fsAll payloadT
      ⟨[(0, ⟨primaryCmd, JobPhase.finishedFail⟩)], 1, [⟨0, 1⟩]⟩ ⟨0, 1⟩
      ⟨primaryCmd, JobPhase.finishedFail⟩ (by decide) rfl,
    chaining_correctness.2.2 fsAll payloadT [evGood] s0 (some rootPath)
      (mkShell "./good.sh") thenPath "notify.sh" rfl (by decide) (by decide)
      rfl (fun d hd => by cases hd; rfl)⟩

/-- C1 (amended): the chain continuation never deletes any tracked job —
on success it starts the pre-created then job directly, leaving the
finished primary job (and every other tracked job) in the table; tracked
job ids are preserved exactly. -/
theorem chain_never_deletes (fs : FS) (payload : Payload) (s : SysState)
    (c : ChainTask) (s' : SysState) (effs : List Effect)
    (h : run_chain fs payload s c = PanicOr.ok (s', effs)) :
    (∀ id, Effect.deleteJob id ∉ effs) ∧
    s'.jobs.map Prod.fst = s.jobs.map Prod.fst := by
  unfold run_chain at h
  cases hl : lookupJob s.jobs c.primaryId with
  | none =>
    rw [hl] at h
    simp at h
    obtain ⟨h1, h2⟩ := h
    subst h1
    subst h2
    exact ⟨by simp, rfl⟩
  | some rec =>
    rw [hl] at h
    obtain ⟨rcmd, rphase⟩ := rec
    cases rphase with
    | created =>
      simp at h
      obtain ⟨h1, h2⟩ := h
      subst h1
      subst h2
      exact ⟨by simp, rfl⟩
    | running =>
      simp at h
      obtain ⟨h1, h2⟩ := h
      subst h1
      subst h2
      exact ⟨by simp, rfl⟩
    | finishedFail =>
      simp at h
      obtain ⟨h1, h2⟩ := h
      subst h1
      subst h2
      exact ⟨by simp, rfl⟩
    | finishedOk =>
      cases htp : payload.raw_then_path with
      | none =>
        rw [htp] at h
        simp at h
      | some tp =>
        rw [htp] at h
        by_cases hr : (then_cd fs payload.initial_dir tp).2 = true
        · simp [hr] at h
          obtain ⟨h1, h2⟩ := h
          subst h1
          subst h2
          constructor
          · intro id hmem
            rw [List.mem_append] at hmem
            rcases hmem with hmem | hmem
            · rcases then_cd_effects_cd_only fs payload.initial_dir tp _ hmem
                with h' | ⟨d, h'⟩ <;> simp at h'
            · simp at hmem
          · exact startThenJob_keys s.jobs c.thenId
        · have hr' : (then_cd fs payload.initial_dir tp).2 = false := by
            simpa using hr
          simp [hr'] at h
          obtain ⟨h1, h2⟩ := h
          subst h1
          subst h2
          refine ⟨?_, rfl⟩
          intro id hmem
          rcases then_cd_effects_cd_only fs payload.initial_dir tp _ hmem
            with h' | ⟨d, h'⟩ <;> simp at h'

/-- C1 witness: the success-path chain run on `sChain` emits only the two
directory changes and the then start, and preserves the tracked ids. -/
theorem chain_never_deletes_witness :
    (∀ id, Effect.deleteJob id ∉
        [Effect.cdInitial, Effect.cdTo rootPath, Effect.startJob 1]) ∧
    (startThenJob sChain.jobs 1).map Prod.fst = sChain.jobs.map Prod.fst :=
  chain_never_deletes fsAll payloadT sChain ⟨0, 1⟩
    ⟨startThenJob sChain.jobs 1, 2, [⟨0, 1⟩]⟩
    [Effect.cdInitial, Effect.cdTo rootPath, Effect.startJob 1] (by decide)

/-- C1 counterexample: with primary job 0 (finished) and then job 1 both
tracked, the chain run starts then job 1 while deleting nothing — both
jobs remain tracked afterwards, so the then job is not started via a
replace-and-start sweep. -/
theorem chain_no_delete_cx :
    lookupJob sChain.jobs 0 = some ⟨primaryCmd, JobPhase.finishedOk⟩ ∧
    lookupJob sChain.jobs 1 = some ⟨thenCmdW, JobPhase.created⟩ ∧
    run_chain fsAll payloadT sChain ⟨0, 1⟩ =
      PanicOr.ok
        (⟨[(0, ⟨primaryCmd, JobPhase.finishedOk⟩),
            (1, ⟨thenCmdW, JobPhase.running⟩)], 2, [⟨0, 1⟩]⟩,
          [Effect.cdInitial, Effect.cdTo rootPath, Effect.startJob 1]) ∧
    Effect.startJob 1 ∈
      [Effect.cdInitial, Effect.cdTo rootPath, Effect.startJob 1] ∧
    (∀ id, Effect.deleteJob id ∉
      [Effect.cdInitial, Effect.cdTo rootPath, Effect.startJob 1]) := by
  refine ⟨by decide, by decide, by decide, by decide, ?_⟩
  intro id
  simp

/-- C10: `Payload::then_command` panics via its `file_name().unwrap()`
exactly when the configured then path has no file-name component; a
qualifying tick that schedules a chain then panics instead of failing
soft; with a file name present the unwrap cannot fire; and such a
configuration passes startup validation (the root exists, can be
executable, and canonicalizes to itself while having no file name). -/
theorem then_unwrap_panic :
    (∀ tp : Path, tp.fileName = none →
      then_command (some tp) = PanicOr.panicked) ∧
    (∀ (tp : Path) (n : String), tp.fileName = some n →
      then_command (some tp) = PanicOr.ok (some ("./" ++ n))) ∧
    (∀ (fs : FS) (payload : Payload) (events : List Event) (s : SysState)
      (cd : Option Path) (cmd : WatchCommand) (tp : Path),
      payload.raw_then_path = some tp →
      tp.fileName = none →
      get_command fs events payload.raw_then_path =
        GetCommandResult.target cd cmd true →
      fs.cd_ok payload.initial_dir = true →
      (∀ d, cd = some d → fs.cd_ok d = true) →
      on_action fs payload false events s = TickResult.panicked) ∧
    (validate_paths fsAll (some rootPath) (some rootPath) =
        ValidateResult.ok (some rootPath) ∧
      rootPath.fileName = none) := by
  refine ⟨?_, ?_, ?_, by decide, by decide⟩
  · intro tp hn
    simp [then_command, hn]
  · intro tp n hn
    simp [then_command, hn]
  · intro fs payload events s cd cmd tp htp hn hg h1 h2
    rw [on_action_target_after_cd fs payload events s cd cmd true hg h1 h2]
    simp [after_cd, then_job, then_command, htp, hn]

/-- C10 witness: a then path of `/` makes `then_command` panic and a
qualifying tick panic; `/notify.sh` cannot make the unwrap fire. -/
theorem then_unwrap_panic_witness :
    then_command (some rootPath) = PanicOr.panicked ∧
    then_command (some thenPath) = PanicOr.ok (some ("./" ++ "notify.sh")) ∧
    on_action fsAll ⟨rootPath, some rootPath⟩ false [evGood] s0 =
      TickResult.panicked :=
  ⟨then_unwrap_panic.1 rootPath (by decide),
    then_unwrap_panic.2.1 thenPath "notify.sh" (by decide),
    then_unwrap_panic.2.2.1 fsAll ⟨rootPath, some rootPath⟩ [evGood] s0
      (some rootPath) (mkShell "./good.sh") rootPath rfl (by decide)
      (by decide) rfl (fun d hd => by cases hd; rfl)⟩

end WatchScripts
